import Mathlib

/-!
Verification development for the QueryKnot flattened key-value format
(src/queryknot.py).  The parsing pipeline built from parsy combinators is
embedded shallowly: a parser is a function from the remaining character
list to an optional (result, rest) pair, alternation backtracks to the
position where the alternation started (parsy's PEG semantics), and
repetition is given explicit fuel (every repeated parser of this grammar
consumes at least one character on success, so fuel equal to the input
length is enough, and the embedding stays kernel-computable).

The dynamic Python values flowing through the pipeline are embedded as
the inductive `PyVal`; Python floats are represented exactly as rationals
(all numeric literals appearing in the verified statements are exactly
representable, so no rounding divergence arises).  Python dicts are
association lists in insertion order, which is exactly the observable
behaviour of dicts in the source (`setdefault` appends, assignment to an
existing key keeps its position).
-/

set_option maxRecDepth 4000

namespace QueryKnot

/-- Embedding of the dynamic (Python) values produced and consumed by the
pipeline: strings, floats (`num`), ints (`intV`, never produced by any
parser since `DataTypes.number` always applies `float`), booleans, lists,
dicts in insertion order, and the attribute objects built by
`Parser._objectify`. -/
inductive PyVal : Type where
  | str : String → PyVal
  | num : ℚ → PyVal
  | intV : Int → PyVal
  | bool : Bool → PyVal
  | list : List PyVal → PyVal
  | dict : List (String × PyVal) → PyVal
  | obj : List (String × PyVal) → PyVal

/-- A Python dict, as an association list in insertion order. -/
abbrev Dict := List (String × PyVal)

/-- The exceptions `Parser.into_dict` can actually raise: assigning
`d[k] = v` on a non-dict raises `TypeError`, calling `.setdefault` on a
non-dict raises `AttributeError`.  The source defines no structural
conflict error of its own. -/
inductive PyErr : Type where
  | typeError : PyErr
  | attributeError : PyErr
deriving DecidableEq

/-- A parser over a character stream: from the remaining input, produce a
value and the rest, or fail. -/
abbrev P (α : Type) : Type := List Char → Option (α × List Char)

/-- Parser that succeeds returning `a` without consuming input. -/
def ppure (a : α) : P α := fun s => some (a, s)

/-- Sequencing: run `p`, then `f` on its result (parsy's bind). -/
def pbind (p : P α) (f : α → P β) : P β := fun s =>
  match p s with
  | none => none
  | some (a, s1) => f a s1

/-- Map a function over a parser's result. -/
def pmap (f : α → β) (p : P α) : P β := fun s =>
  match p s with
  | none => none
  | some (a, s1) => some (f a, s1)

/-- Alternation with full backtracking, parsy's `|`: if `p` fails, `q` is
tried from the same starting position. -/
def palt (p q : P α) : P α := fun s =>
  match p s with
  | none => q s
  | r => r

/-- parsy's `>>`: run both, keep the right result. -/
def pseqR (p : P α) (q : P β) : P β := pbind p (fun _ => q)

/-- Match one given character. -/
def pchar (c : Char) : P Char := fun s =>
  match s with
  | [] => none
  | d :: rest => if d = c then some (c, rest) else none

/-- parsy's `.many()`: repeat `p` while it succeeds, collecting results,
with explicit fuel.  Every repeated parser of this grammar consumes at
least one character on success, so fuel `length + 1` makes this agree
with parsy. -/
def pmany (p : P α) : Nat → P (List α)
  | 0, s => some ([], s)
  | n + 1, s =>
    match p s with
    | none => some ([], s)
    | some (a, s1) =>
      match pmany p n s1 with
      | none => none
      | some (as, s2) => some (a :: as, s2)

/-- `p.many()` with the fuel computed from the current input length. -/
def pmanyL (p : P α) : P (List α) := fun s => pmany p (s.length + 1) s

/-- Python's `\s` character class (ASCII part). -/
def isPySpace (c : Char) : Bool :=
  c = ' ' || c = '\t' || c = '\n' || c = '\r' || c = '\x0b' || c = '\x0c'

/-- `trim_whitespace(parser)` from the source:
`whitespace.many() >> parser << whitespace.many()`.  Since `whitespace`
is the greedy regex `\s+`, the two `many`s deterministically drop every
surrounding whitespace character. -/
def trimWS (p : P α) : P α := fun s =>
  match p (s.dropWhile isPySpace) with
  | none => none
  | some (a, s1) => some (a, s1.dropWhile isPySpace)

/-- parsy's `string(lit, transform=str.lower)`: take `lit.length`
characters, lowercase them, compare with `lit` (already lowercase). -/
def litLower (lit : List Char) : P Unit := fun s =>
  if (s.take lit.length).map Char.toLower = lit then some ((), s.drop lit.length)
  else none

/-- Run a parser the way parsy's `.parse` does: succeed only if the whole
input is consumed, otherwise fail. -/
def runP (p : P α) (s : String) : Option α :=
  match p s.data with
  | some (a, []) => some a
  | _ => none

namespace DataTypes

/-- The `escape` alternative inside `DataTypes.string_literal`:
`string('\\') >> regex('.')`.  Python's `.` (no DOTALL) matches every
character except a newline. -/
def escape : P Char :=
  pseqR (pchar '\\') (fun s =>
    match s with
    | [] => none
    | c :: rest => if c = '\n' then none else some (c, rest))

/-- The `expect` alternative inside `DataTypes.string_literal`:
`regex(r'[^"\\]')` — any character that is not a double quote or a
backslash (newlines included, since Python character classes match
newlines). -/
def expect : P Char := fun s =>
  match s with
  | [] => none
  | c :: rest => if c = '"' ∨ c = '\\' then none else some (c, rest)

/-- The `quotes` parser inside `DataTypes.string_literal`:
`trim_whitespace(string('"'))`. -/
def quotes : P Char := trimWS (pchar '"')

/-- `DataTypes.string_literal`:
`quotes >> (escape | expect).many().concat() << quotes`, returning the
content (a Python str). -/
def string_literal : P String :=
  pbind quotes (fun _ =>
  pbind (pmap (fun cs => String.mk cs) (pmanyL (palt escape expect))) (fun content =>
  pmap (fun _ => content) quotes))

/-- The regex `r'-?\d+(\.\d+)?(e-?\d+)?'` of `DataTypes.number`, matched
greedily at the current position; returns the matched text. -/
def regexNumber : P String := fun s =>
  let (sign, s1) : List Char × List Char :=
    match s with
    | '-' :: rest => (['-'], rest)
    | _ => ([], s)
  let ds := s1.takeWhile Char.isDigit
  let r1 := s1.dropWhile Char.isDigit
  if ds = [] then none
  else
    let (frac, r2) : List Char × List Char :=
      match r1 with
      | '.' :: rest =>
        let fs := rest.takeWhile Char.isDigit
        if fs = [] then ([], r1) else ('.' :: fs, rest.dropWhile Char.isDigit)
      | _ => ([], r1)
    let (ex, r3) : List Char × List Char :=
      match r2 with
      | 'e' :: rest =>
        let (es, r2b) : List Char × List Char :=
          match rest with
          | '-' :: rr => (['-'], rr)
          | _ => ([], rest)
        let eds := r2b.takeWhile Char.isDigit
        if eds = [] then ([], r2) else ('e' :: es ++ eds, r2b.dropWhile Char.isDigit)
      | _ => ([], r2)
    some (String.mk (sign ++ ds ++ frac ++ ex), r3)

/-- Numeric value of a digit list. -/
def digitsToNat (ds : List Char) : Nat :=
  ds.foldl (fun acc c => acc * 10 + (c.toNat - 48)) 0

/-- Python's `float` applied to a string matched by the number regex:
the exact rational value denoted by the literal. -/
def pyFloat (str : String) : ℚ :=
  let (neg, s1) : Bool × List Char :=
    match str.data with
    | '-' :: rest => (true, rest)
    | s => (false, s)
  let ids := s1.takeWhile Char.isDigit
  let r1 := s1.dropWhile Char.isDigit
  let (fds, r2) : List Char × List Char :=
    match r1 with
    | '.' :: rest => (rest.takeWhile Char.isDigit, rest.dropWhile Char.isDigit)
    | _ => ([], r1)
  let eInt : Int :=
    match r2 with
    | 'e' :: '-' :: rest => -(digitsToNat (rest.takeWhile Char.isDigit) : Int)
    | 'e' :: rest => (digitsToNat (rest.takeWhile Char.isDigit) : Int)
    | _ => 0
  let m : Int := (if neg then -1 else 1) * (digitsToNat (ids ++ fds) : Int)
  let e : Int := eInt - (fds.length : Int)
  if 0 ≤ e then ((m * (10 : Int) ^ e.toNat : Int) : ℚ)
  else mkRat m ((10 : Nat) ^ (-e).toNat)

/-- `DataTypes.number`: `trim_whitespace(regex(...)).map(float)` — a
Python float (never an int), embedded as `PyVal.num`. -/
def number : P PyVal := pmap (fun str => PyVal.num (pyFloat str)) (trimWS regexNumber)

/-- `DataTypes.boolean`: case-insensitive `true` / `false` with
surrounding whitespace trimmed. -/
def boolean : P PyVal :=
  trimWS (palt (pmap (fun _ => PyVal.bool true) (litLower ['t', 'r', 'u', 'e']))
               (pmap (fun _ => PyVal.bool false) (litLower ['f', 'a', 'l', 's', 'e'])))

/-- Characters of a key segment: `[a-zA-Z0-9_]`. -/
def isKeyChar (c : Char) : Bool := c.isAlphanum || c = '_'

/-- The `(\.[a-zA-Z0-9_]*)*` tail of the key regex, with fuel (each
iteration consumes the dot). -/
def keyTail : Nat → List Char → List Char × List Char
  | 0, s => ([], s)
  | _ + 1, [] => ([], [])
  | n + 1, c :: rest =>
    if c = '.' then
      let seg := rest.takeWhile isKeyChar
      let r := rest.dropWhile isKeyChar
      let (more, r1) := keyTail n r
      ('.' :: (seg ++ more), r1)
    else ([], c :: rest)

/-- The regex `r'[a-zA-Z0-9_]*(\.[a-zA-Z0-9_]*)*'` of `DataTypes.key`,
matched greedily; always succeeds (possibly with an empty match). -/
def regexKey : P String := fun s =>
  let seg := s.takeWhile isKeyChar
  let r := s.dropWhile isKeyChar
  let (more, r1) := keyTail (r.length + 1) r
  some (String.mk (seg ++ more), r1)

/-- `DataTypes.key`: the dotted-key regex with surrounding whitespace
trimmed; returns the raw dotted string, unsplit. -/
def key : P String := trimWS regexKey

/-- parsy's `sep_by(sep)` with `min=0`:
`p (sep >> p)* | success([])`, with PEG backtracking. -/
def sepBy (p : P α) (sep : P Unit) : P (List α) :=
  palt (pbind p (fun a => pmap (fun as => a :: as) (pmanyL (pseqR sep p)))) (ppure [])

/-- The separator of `DataTypes.collection`:
`trim_whitespace(string(',') | string(' ').many())`; the space-run
alternative may succeed consuming nothing. -/
def ws_or_comma : P Unit :=
  trimWS (palt (pmap (fun _ => ()) (pchar ','))
               (fun s => some ((), s.dropWhile (fun c => c = ' '))))

/-- One element of a collection:
`DataTypes.string_literal | DataTypes.number | DataTypes.boolean`,
in that order. -/
def element : P PyVal :=
  palt (pmap PyVal.str string_literal) (palt number boolean)

/-- `DataTypes.collection`:
`trim_whitespace(string('[') >> element.sep_by(ws_or_comma) << string(']'))`. -/
def collection : P (List PyVal) :=
  trimWS (pbind (pchar '[') (fun _ =>
    pbind (sepBy element ws_or_comma) (fun vals =>
    pmap (fun _ => vals) (pchar ']'))))

end DataTypes

namespace Parser

/-- The value alternation of `Parser.datum`:
`DataTypes.string_literal | DataTypes.number | DataTypes.boolean |
DataTypes.collection`, in that order. -/
def valueP : P PyVal :=
  palt (pmap PyVal.str DataTypes.string_literal)
    (palt DataTypes.number
      (palt DataTypes.boolean (pmap PyVal.list DataTypes.collection)))

/-- `Parser.datum`: one trimmed key followed by one trimmed value. -/
def datum : P (String × PyVal) :=
  pbind (trimWS DataTypes.key) (fun k =>
    pmap (fun v => (k, v)) (trimWS valueP))

/-- `Parser._parser`: `Parser.datum.many()`. -/
def documentP : P (List (String × PyVal)) := pmanyL datum

/-- `Parser.parse`: run the document grammar on the whole input; parsy's
`.parse` fails unless every character is consumed. -/
def parse (s : String) : Option (List (String × PyVal)) := runP documentP s

end Parser

/-- Python dict lookup `d[k]` / `k in d` on an insertion-ordered
association list. -/
def dictGet : Dict → String → Option PyVal
  | [], _ => none
  | (k, v) :: rest, key => if k = key then some v else dictGet rest key

/-- Python dict assignment `d[k] = v`: an existing key keeps its
position, a new key is appended (insertion order). -/
def dictSet : Dict → String → PyVal → Dict
  | [], key, val => [(key, val)]
  | (k, v) :: rest, key, val =>
    if k = key then (k, val) :: rest else (k, v) :: dictSet rest key val

/-- Helper for `splitKey`: split a character list on `'.'`, accumulating
the current segment (in reverse). -/
def splitSegsAux : List Char → List Char → List (List Char)
  | acc, [] => [acc.reverse]
  | acc, c :: cs =>
    if c = '.' then acc.reverse :: splitSegsAux [] cs else splitSegsAux (c :: acc) cs

/-- Python's `key.split('.')`: the dotted key as its list of segments
(always non-empty; `""` splits to `[""]`, `"a..b"` to `["a", "", "b"]`). -/
def splitKey (k : String) : List String :=
  (splitSegsAux [] k.data).map (fun cs => String.mk cs)

namespace Parser

/-- The body of `Parser.into_dict` for one pair, after
`segments = key.split('.')` and `finalseg = segments.pop()`: walk the
dict along all segments but the last with `setdefault(seg, {})` and then
assign the value at the final segment.  `setdefault` on a non-dict value
raises `AttributeError`; the final assignment on a non-dict raises
`TypeError`; an existing dict at the final segment is silently
overwritten (plain `current[finalseg] = val`). -/
def insertPath : Dict → List String → PyVal → Except PyErr Dict
  | d, [], _ => .ok d
  | d, [fin], v => .ok (dictSet d fin v)
  | d, s :: t :: more, v =>
    match dictGet d s with
    | none =>
      match insertPath [] (t :: more) v with
      | .ok sub => .ok (dictSet d s (.dict sub))
      | .error e => .error e
    | some (.dict sub) =>
      match insertPath sub (t :: more) v with
      | .ok sub1 => .ok (dictSet d s (.dict sub1))
      | .error e => .error e
    | some _ => .error (if more = [] then .typeError else .attributeError)

/-- The loop of `Parser.into_dict` over the remaining pairs, carrying the
result dict; a raised exception aborts the whole call. -/
def into_dict_go : Dict → List (String × PyVal) → Except PyErr Dict
  | d, [] => .ok d
  | d, (k, v) :: rest =>
    match insertPath d (splitKey k) v with
    | .ok d1 => into_dict_go d1 rest
    | .error e => .error e

/-- `Parser.into_dict`: fold the ordered pairs into a nested dict,
starting from `{}`. -/
def into_dict (pairs : List (String × PyVal)) : Except PyErr Dict :=
  into_dict_go [] pairs

end Parser

mutual

/-- `Parser._objectify`: a dict becomes an `Object` whose attributes are
the objectified entries (in dict order), a list is objectified
elementwise, anything else is returned unchanged. -/
def objectify : PyVal → PyVal
  | .dict entries => .obj (objectifyEntries entries)
  | .list items => .list (objectifyList items)
  | .str s => .str s
  | .num q => .num q
  | .intV n => .intV n
  | .bool b => .bool b
  | .obj entries => .obj entries

/-- `Parser._objectify` mapped over the entries of a dict. -/
def objectifyEntries : List (String × PyVal) → List (String × PyVal)
  | [] => []
  | (k, v) :: rest => (k, objectify v) :: objectifyEntries rest

/-- `Parser._objectify` mapped over the elements of a list. -/
def objectifyList : List PyVal → List PyVal
  | [] => []
  | v :: rest => objectify v :: objectifyList rest

end

namespace Parser

/-- The argument of `Parser.into_object`: either a list of key-value
pairs or an already built dict. -/
abbrev ObjArg := (List (String × PyVal)) ⊕ Dict

/-- `Parser.into_object`: on a list of pairs, first build the dict with
`into_dict` (propagating any exception), then objectify; on a dict,
objectify directly. -/
def into_object : ObjArg → Except PyErr PyVal
  | .inl pairs =>
    match into_dict pairs with
    | .ok d => .ok (objectify (.dict d))
    | .error e => .error e
  | .inr d => .ok (objectify (.dict d))

end Parser

/-- Is this value a Python dict? -/
def isDictV : PyVal → Bool
  | .dict _ => true
  | _ => false

/-- Navigate a nested dict along a (non-empty) segment path; descending
below the last segment requires a dict at every intermediate step. -/
def lookupPath : Dict → List String → Option PyVal
  | _, [] => none
  | d, [s] => dictGet d s
  | d, s :: t :: more =>
    match dictGet d s with
    | some (.dict sub) => lookupPath sub (t :: more)
    | _ => none

/-- `a` is a strict (proper) prefix of `b`, segmentwise. -/
def properUnder : List String → List String → Bool
  | [], [] => false
  | [], _ :: _ => true
  | _ :: _, [] => false
  | x :: xs, y :: ys => if x = y then properUnder xs ys else false

/-- No key path of the list is a strict prefix of another key path (a
structural conflict in the spec's sense). -/
def noConflictB (ps : List (String × PyVal)) : Bool :=
  ps.all (fun p => ps.all (fun q => !properUnder (splitKey p.1) (splitKey q.1)))

/-- The value of the last pair of `ps` whose key splits to `path`. -/
def lastValAt (ps : List (String × PyVal)) (path : List String) : Option PyVal :=
  (ps.filterMap (fun p => if splitKey p.1 = path then some p.2 else none)).getLast?

/-- Success condition of `Parser.insertPath`: the walk along all segments
but the last meets only dicts or missing keys. -/
def freeB : Dict → List String → Bool
  | _, [] => true
  | _, [_] => true
  | d, s :: t :: more =>
    match dictGet d s with
    | none => true
    | some (.dict sub) => freeB sub (t :: more)
    | some _ => false

theorem dictGet_dictSet_self (d : Dict) (k : String) (v : PyVal) :
    dictGet (dictSet d k v) k = some v := by
  induction d with
  | nil => simp [dictSet, dictGet]
  | cons p rest ih =>
    obtain ⟨k1, v1⟩ := p
    by_cases h : k1 = k
    · subst h; simp [dictSet, dictGet]
    · simp [dictSet, dictGet, h, ih]

theorem dictGet_dictSet_other (d : Dict) (k a : String) (v : PyVal) (h : a ≠ k) :
    dictGet (dictSet d k v) a = dictGet d a := by
  have h' : ¬ k = a := fun hh => h hh.symm
  induction d with
  | nil => simp [dictSet, dictGet, h']
  | cons p rest ih =>
    obtain ⟨k1, v1⟩ := p
    by_cases h1 : k1 = k
    · subst h1
      simp [dictSet, dictGet, h']
    · simp [dictSet, dictGet, h1, ih]

theorem lookupPath_nil_path (d : Dict) : lookupPath d [] = none := rfl

theorem lookupPath_empty (q : List String) : lookupPath ([] : Dict) q = none := by
  match q with
  | [] => rfl
  | [s] => rfl
  | s :: t :: more => rfl

theorem properUnder_nil_right (a : List String) : properUnder a [] = false := by
  cases a <;> rfl

theorem properUnder_cons_cons (x y : String) (xs ys : List String) :
    properUnder (x :: xs) (y :: ys) = if x = y then properUnder xs ys else false := rfl

theorem properUnder_same_cons (x : String) (xs ys : List String) :
    properUnder (x :: xs) (x :: ys) = properUnder xs ys := by
  simp [properUnder_cons_cons]

theorem splitSegsAux_ne_nil (cs : List Char) : ∀ acc, splitSegsAux acc cs ≠ [] := by
  induction cs with
  | nil => intro acc; simp [splitSegsAux]
  | cons c cs ih =>
    intro acc
    by_cases h : c = '.'
    · simp [splitSegsAux, h]
    · simpa [splitSegsAux, h] using ih (c :: acc)

theorem splitKey_ne_nil (k : String) : splitKey k ≠ [] := by
  simpa [splitKey] using splitSegsAux_ne_nil k.data []

theorem freeB_empty (segs : List String) : freeB ([] : Dict) segs = true := by
  match segs with
  | [] => rfl
  | [s] => rfl
  | s :: t :: more => simp [freeB, dictGet]

theorem insertPath_ok (segs : List String) : ∀ (d : Dict) (v : PyVal), segs ≠ [] →
    freeB d segs = true → ∃ d1, Parser.insertPath d segs v = .ok d1 := by
  induction segs with
  | nil => intro d v h _; exact absurd rfl h
  | cons s rest ih =>
    intro d v _ hfree
    cases rest with
    | nil => exact ⟨dictSet d s v, rfl⟩
    | cons t more =>
      cases hget : dictGet d s with
      | none =>
        obtain ⟨sub, hsub⟩ := ih [] v (by simp) (freeB_empty _)
        exact ⟨dictSet d s (.dict sub), by simp [Parser.insertPath, hget, hsub]⟩
      | some w =>
        cases w with
        | dict sub =>
          have hfree1 : freeB sub (t :: more) = true := by
            simpa [freeB, hget] using hfree
          obtain ⟨sub1, hsub⟩ := ih sub v (by simp) hfree1
          exact ⟨dictSet d s (.dict sub1), by simp [Parser.insertPath, hget, hsub]⟩
        | str a => simp [freeB, hget] at hfree
        | num a => simp [freeB, hget] at hfree
        | intV a => simp [freeB, hget] at hfree
        | bool a => simp [freeB, hget] at hfree
        | list a => simp [freeB, hget] at hfree
        | obj a => simp [freeB, hget] at hfree

theorem insertPath_lookup_self (segs : List String) :
    ∀ (d d1 : Dict) (v : PyVal), Parser.insertPath d segs v = .ok d1 → segs ≠ [] →
    lookupPath d1 segs = some v := by
  induction segs with
  | nil => intro d d1 v _ h; exact absurd rfl h
  | cons s rest ih =>
    intro d d1 v h _
    cases rest with
    | nil =>
      simp [Parser.insertPath] at h
      subst h
      simp [lookupPath, dictGet_dictSet_self]
    | cons t more =>
      cases hget : dictGet d s with
      | none =>
        cases hsub : Parser.insertPath ([] : Dict) (t :: more) v with
        | error e => simp [Parser.insertPath, hget, hsub] at h
        | ok sub =>
          simp [Parser.insertPath, hget, hsub] at h
          subst h
          simpa [lookupPath, dictGet_dictSet_self] using ih [] sub v hsub (by simp)
      | some w =>
        cases w with
        | dict sub =>
          cases hsub : Parser.insertPath sub (t :: more) v with
          | error e => simp [Parser.insertPath, hget, hsub] at h
          | ok sub1 =>
            simp [Parser.insertPath, hget, hsub] at h
            subst h
            simpa [lookupPath, dictGet_dictSet_self] using ih sub sub1 v hsub (by simp)
        | str a => simp [Parser.insertPath, hget] at h
        | num a => simp [Parser.insertPath, hget] at h
        | intV a => simp [Parser.insertPath, hget] at h
        | bool a => simp [Parser.insertPath, hget] at h
        | list a => simp [Parser.insertPath, hget] at h
        | obj a => simp [Parser.insertPath, hget] at h

theorem insertPath_lookup_above (segs : List String) :
    ∀ (d d1 : Dict) (v : PyVal) (q : List String),
    Parser.insertPath d segs v = .ok d1 → properUnder q segs = true → q ≠ [] →
    ∃ sub, lookupPath d1 q = some (.dict sub) := by
  induction segs with
  | nil => intro d d1 v q _ hpre _; rw [properUnder_nil_right] at hpre; exact absurd hpre (by simp)
  | cons s rest ih =>
    intro d d1 v q h hpre hq
    cases q with
    | nil => exact absurd rfl hq
    | cons x xs =>
      by_cases hx : x = s
      · subst hx
        rw [properUnder_same_cons] at hpre
        cases rest with
        | nil => rw [properUnder_nil_right] at hpre; exact absurd hpre (by simp)
        | cons t more =>
          cases hget : dictGet d x with
          | none =>
            cases hsub : Parser.insertPath ([] : Dict) (t :: more) v with
            | error e => simp [Parser.insertPath, hget, hsub] at h
            | ok sub =>
              simp [Parser.insertPath, hget, hsub] at h
              subst h
              cases xs with
              | nil => exact ⟨sub, by simp [lookupPath, dictGet_dictSet_self]⟩
              | cons y ys =>
                obtain ⟨sub2, hsub2⟩ := ih [] sub v (y :: ys) hsub hpre (by simp)
                exact ⟨sub2, by simpa [lookupPath, dictGet_dictSet_self] using hsub2⟩
          | some w =>
            cases w with
            | dict sub =>
              cases hsub : Parser.insertPath sub (t :: more) v with
              | error e => simp [Parser.insertPath, hget, hsub] at h
              | ok sub1 =>
                simp [Parser.insertPath, hget, hsub] at h
                subst h
                cases xs with
                | nil => exact ⟨sub1, by simp [lookupPath, dictGet_dictSet_self]⟩
                | cons y ys =>
                  obtain ⟨sub2, hsub2⟩ := ih sub sub1 v (y :: ys) hsub hpre (by simp)
                  exact ⟨sub2, by simpa [lookupPath, dictGet_dictSet_self] using hsub2⟩
            | str a => simp [Parser.insertPath, hget] at h
            | num a => simp [Parser.insertPath, hget] at h
            | intV a => simp [Parser.insertPath, hget] at h
            | bool a => simp [Parser.insertPath, hget] at h
            | list a => simp [Parser.insertPath, hget] at h
            | obj a => simp [Parser.insertPath, hget] at h
      · rw [properUnder_cons_cons, if_neg hx] at hpre
        exact absurd hpre (by simp)

theorem lookupPath_past_nondict (p : List String) :
    ∀ (d : Dict) (q : List String) (v : PyVal),
    lookupPath d p = some v → isDictV v = false → properUnder p q = true →
    lookupPath d q = none := by
  induction p with
  | nil => intro d q v h _ _; simp [lookupPath_nil_path] at h
  | cons s rest ih =>
    intro d q v h hnd hpre
    cases rest with
    | nil =>
      cases q with
      | nil => rw [properUnder_nil_right] at hpre; exact absurd hpre (by simp)
      | cons y qs =>
        by_cases hy : s = y
        · subst hy
          cases qs with
          | nil =>
            rw [properUnder_same_cons] at hpre
            simp [properUnder] at hpre
          | cons t qs1 =>
            have hget : dictGet d s = some v := h
            cases v with
            | dict sub => simp [isDictV] at hnd
            | str a => simp [lookupPath, hget]
            | num a => simp [lookupPath, hget]
            | intV a => simp [lookupPath, hget]
            | bool a => simp [lookupPath, hget]
            | list a => simp [lookupPath, hget]
            | obj a => simp [lookupPath, hget]
        · rw [properUnder_cons_cons, if_neg hy] at hpre
          exact absurd hpre (by simp)
    | cons t more =>
      cases hget : dictGet d s with
      | none => simp [lookupPath, hget] at h
      | some w =>
        cases w with
        | dict sub =>
          have h1 : lookupPath sub (t :: more) = some v := by
            simpa [lookupPath, hget] using h
          cases q with
          | nil => rw [properUnder_nil_right] at hpre; exact absurd hpre (by simp)
          | cons y qs =>
            by_cases hy : s = y
            · subst hy
              rw [properUnder_same_cons] at hpre
              cases qs with
              | nil => rw [properUnder_nil_right] at hpre; exact absurd hpre (by simp)
              | cons y1 qs1 =>
                simpa [lookupPath, hget] using ih sub (y1 :: qs1) v h1 hnd hpre
            · rw [properUnder_cons_cons, if_neg hy] at hpre
              exact absurd hpre (by simp)
        | str a => simp [lookupPath, hget] at h
        | num a => simp [lookupPath, hget] at h
        | intV a => simp [lookupPath, hget] at h
        | bool a => simp [lookupPath, hget] at h
        | list a => simp [lookupPath, hget] at h
        | obj a => simp [lookupPath, hget] at h

theorem insertPath_shape (d : Dict) (s t : String) (more : List String) (v : PyVal) (d1 : Dict)
    (h : Parser.insertPath d (s :: t :: more) v = .ok d1) : ∃ X, d1 = dictSet d s X := by
  cases hget : dictGet d s with
  | none =>
    cases hsub : Parser.insertPath ([] : Dict) (t :: more) v with
    | error e => simp [Parser.insertPath, hget, hsub] at h
    | ok sub =>
      simp [Parser.insertPath, hget, hsub] at h
      exact ⟨.dict sub, h.symm⟩
  | some w =>
    cases w with
    | dict sub =>
      cases hsub : Parser.insertPath sub (t :: more) v with
      | error e => simp [Parser.insertPath, hget, hsub] at h
      | ok sub1 =>
        simp [Parser.insertPath, hget, hsub] at h
        exact ⟨.dict sub1, h.symm⟩
    | str a => simp [Parser.insertPath, hget] at h
    | num a => simp [Parser.insertPath, hget] at h
    | intV a => simp [Parser.insertPath, hget] at h
    | bool a => simp [Parser.insertPath, hget] at h
    | list a => simp [Parser.insertPath, hget] at h
    | obj a => simp [Parser.insertPath, hget] at h

theorem insertPath_frame (segs : List String) :
    ∀ (d d1 : Dict) (v : PyVal) (q : List String),
    Parser.insertPath d segs v = .ok d1 →
    properUnder q segs = false → properUnder segs q = false → q ≠ segs →
    lookupPath d1 q = lookupPath d q := by
  induction segs with
  | nil =>
    intro d d1 v q h _ _ _
    simp [Parser.insertPath] at h
    subst h; rfl
  | cons s rest ih =>
    intro d d1 v q h h1 h2 h3
    cases rest with
    | nil =>
      simp [Parser.insertPath] at h
      subst h
      cases q with
      | nil => simp [lookupPath_nil_path]
      | cons a qs =>
        by_cases ha : a = s
        · subst ha
          cases qs with
          | nil => exact absurd rfl h3
          | cons b qs1 =>
            rw [properUnder_same_cons] at h2
            simp [properUnder] at h2
        · cases qs with
          | nil => simp [lookupPath, dictGet_dictSet_other d s a v ha]
          | cons b qs1 => simp [lookupPath, dictGet_dictSet_other d s a v ha]
    | cons t more =>
      cases q with
      | nil => simp [lookupPath_nil_path]
      | cons a qs =>
        by_cases ha : a = s
        · subst ha
          rw [properUnder_same_cons] at h1 h2
          have h3' : qs ≠ t :: more := fun hh => h3 (by rw [hh])
          cases qs with
          | nil => simp [properUnder] at h1
          | cons b qs1 =>
            cases hget : dictGet d a with
            | none =>
              cases hsub : Parser.insertPath ([] : Dict) (t :: more) v with
              | error e => simp [Parser.insertPath, hget, hsub] at h
              | ok sub =>
                simp [Parser.insertPath, hget, hsub] at h
                subst h
                have hfresh := ih [] sub v (b :: qs1) hsub h1 h2 h3'
                rw [lookupPath_empty] at hfresh
                simp [lookupPath, dictGet_dictSet_self, hget, hfresh]
            | some w =>
              cases w with
              | dict sub =>
                cases hsub : Parser.insertPath sub (t :: more) v with
                | error e => simp [Parser.insertPath, hget, hsub] at h
                | ok sub1 =>
                  simp [Parser.insertPath, hget, hsub] at h
                  subst h
                  have hstep := ih sub sub1 v (b :: qs1) hsub h1 h2 h3'
                  simp [lookupPath, dictGet_dictSet_self, hget, hstep]
              | str a1 => simp [Parser.insertPath, hget] at h
              | num a1 => simp [Parser.insertPath, hget] at h
              | intV a1 => simp [Parser.insertPath, hget] at h
              | bool a1 => simp [Parser.insertPath, hget] at h
              | list a1 => simp [Parser.insertPath, hget] at h
              | obj a1 => simp [Parser.insertPath, hget] at h
        · obtain ⟨X, hX⟩ := insertPath_shape d s t more v d1 h
          subst hX
          cases qs with
          | nil => simp [lookupPath, dictGet_dictSet_other d s a X ha]
          | cons b qs1 => simp [lookupPath, dictGet_dictSet_other d s a X ha]

theorem freeB_false_leaf (segs : List String) : ∀ (d : Dict), freeB d segs = false →
    ∃ q v, q ≠ [] ∧ properUnder q segs = true ∧ lookupPath d q = some v ∧ isDictV v = false := by
  induction segs with
  | nil => intro d h; simp [freeB] at h
  | cons s rest ih =>
    intro d h
    cases rest with
    | nil => simp [freeB] at h
    | cons t more =>
      cases hget : dictGet d s with
      | none => simp [freeB, hget] at h
      | some w =>
        cases w with
        | dict sub =>
          have h1 : freeB sub (t :: more) = false := by simpa [freeB, hget] using h
          obtain ⟨q, v, hq, hpre, hlook, hnd⟩ := ih sub h1
          refine ⟨s :: q, v, by simp, ?_, ?_, hnd⟩
          · rw [properUnder_same_cons]; exact hpre
          · cases q with
            | nil => exact absurd rfl hq
            | cons y ys => simpa [lookupPath, hget] using hlook
        | str a => exact ⟨[s], .str a, by simp, by rw [properUnder_same_cons]; rfl, hget, rfl⟩
        | num a => exact ⟨[s], .num a, by simp, by rw [properUnder_same_cons]; rfl, hget, rfl⟩
        | intV a => exact ⟨[s], .intV a, by simp, by rw [properUnder_same_cons]; rfl, hget, rfl⟩
        | bool a => exact ⟨[s], .bool a, by simp, by rw [properUnder_same_cons]; rfl, hget, rfl⟩
        | list a => exact ⟨[s], .list a, by simp, by rw [properUnder_same_cons]; rfl, hget, rfl⟩
        | obj a => exact ⟨[s], .obj a, by simp, by rw [properUnder_same_cons]; rfl, hget, rfl⟩

theorem into_dict_go_append (l : List (String × PyVal)) :
    ∀ (d : Dict) (k : String) (v : PyVal),
    Parser.into_dict_go d (l ++ [(k, v)]) =
      match Parser.into_dict_go d l with
      | .ok d1 => Parser.insertPath d1 (splitKey k) v
      | .error e => .error e := by
  induction l with
  | nil =>
    intro d k v
    cases hx : Parser.insertPath d (splitKey k) v with
    | ok d1 => simp [Parser.into_dict_go, hx]
    | error e => simp [Parser.into_dict_go, hx]
  | cons p l ih =>
    intro d k v
    obtain ⟨k0, v0⟩ := p
    cases hx : Parser.insertPath d (splitKey k0) v0 with
    | ok d1 => simpa [Parser.into_dict_go, hx] using ih d1 k v
    | error e => simp [Parser.into_dict_go, hx]

theorem lastValAt_append_eq (ps : List (String × PyVal)) (k : String) (v : PyVal)
    (path : List String) (h : splitKey k = path) :
    lastValAt (ps ++ [(k, v)]) path = some v := by
  unfold lastValAt
  rw [List.filterMap_append]
  have h1 : List.filterMap
      (fun p => if splitKey p.1 = path then some p.2 else none) [(k, v)] = [v] := by
    simp [h]
  rw [h1, List.getLast?_concat]

theorem lastValAt_append_ne (ps : List (String × PyVal)) (k : String) (v : PyVal)
    (path : List String) (h : splitKey k ≠ path) :
    lastValAt (ps ++ [(k, v)]) path = lastValAt ps path := by
  unfold lastValAt
  rw [List.filterMap_append]
  have h1 : List.filterMap
      (fun p => if splitKey p.1 = path then some p.2 else none) [(k, v)] = [] := by
    simp [h]
  rw [h1, List.append_nil]

theorem into_dict_build :
    ∀ ps : List (String × PyVal),
    (∀ p ∈ ps, isDictV p.2 = false) →
    (∀ p ∈ ps, ∀ p1 ∈ ps, properUnder (splitKey p.1) (splitKey p1.1) = false) →
    ∃ d, Parser.into_dict ps = .ok d ∧
      (∀ q v, lookupPath d q = some v → isDictV v = false →
        ∃ k, k ∈ ps.map Prod.fst ∧ splitKey k = q) ∧
      (∀ q sub, lookupPath d q = some (.dict sub) →
        ∃ k, k ∈ ps.map Prod.fst ∧ properUnder q (splitKey k) = true) ∧
      (∀ k, k ∈ ps.map Prod.fst → lookupPath d (splitKey k) = lastValAt ps (splitKey k)) := by
  intro ps
  induction ps using List.reverseRecOn with
  | nil =>
    intro _ _
    refine ⟨[], rfl, ?_, ?_, ?_⟩
    · intro q v h _; rw [lookupPath_empty] at h; cases h
    · intro q sub h; rw [lookupPath_empty] at h; cases h
    · intro k hk; simp at hk
  | append_singleton ps x ih =>
    obtain ⟨k, v⟩ := x
    intro hv hnc
    have hv' : ∀ p ∈ ps, isDictV p.2 = false := fun p hp => hv p (by simp [hp])
    have hnc' : ∀ p ∈ ps, ∀ p1 ∈ ps, properUnder (splitKey p.1) (splitKey p1.1) = false :=
      fun p hp p1 hp1 => hnc p (by simp [hp]) p1 (by simp [hp1])
    obtain ⟨d, hok, hleaf, hdict, hlast⟩ := ih hv' hnc'
    have hvk : isDictV v = false := hv (k, v) (by simp)
    have hvsub : ∀ k1, k1 ∈ ps.map Prod.fst →
        properUnder (splitKey k1) (splitKey k) = false ∧
        properUnder (splitKey k) (splitKey k1) = false := by
      intro k1 hk1
      obtain ⟨p, hp, hpk⟩ := List.mem_map.mp hk1
      constructor
      · have hx := hnc p (by simp [hp]) (k, v) (by simp)
        rw [hpk] at hx; exact hx
      · have hx := hnc (k, v) (by simp) p (by simp [hp])
        rw [hpk] at hx; exact hx
    have hfree : freeB d (splitKey k) = true := by
      cases hfb : freeB d (splitKey k) with
      | true => rfl
      | false =>
        obtain ⟨q, w, hq, hpre, hlook, hnd⟩ := freeB_false_leaf (splitKey k) d hfb
        obtain ⟨k1, hk1, hk1q⟩ := hleaf q w hlook hnd
        have hcmp := (hvsub k1 hk1).1
        rw [hk1q] at hcmp
        rw [hcmp] at hpre
        simp at hpre
    obtain ⟨d1, hins⟩ := insertPath_ok (splitKey k) d v (splitKey_ne_nil k) hfree
    have hok1 : Parser.into_dict (ps ++ [(k, v)]) = .ok d1 := by
      have hgo : Parser.into_dict_go [] ps = .ok d := hok
      show Parser.into_dict_go [] (ps ++ [(k, v)]) = .ok d1
      rw [into_dict_go_append, hgo]
      exact hins
    refine ⟨d1, hok1, ?_, ?_, ?_⟩
    · intro q w hlookup hnd
      have hqne : q ≠ [] := by
        intro h0; subst h0; rw [lookupPath_nil_path] at hlookup; cases hlookup
      by_cases hqe : q = splitKey k
      · exact ⟨k, by simp, hqe.symm⟩
      · cases hq1 : properUnder q (splitKey k) with
        | true =>
          obtain ⟨sub, hsub⟩ := insertPath_lookup_above (splitKey k) d d1 v q hins hq1 hqne
          rw [hsub] at hlookup
          injection hlookup with hw
          rw [← hw] at hnd
          simp [isDictV] at hnd
        | false =>
          cases hq2 : properUnder (splitKey k) q with
          | true =>
            have hself := insertPath_lookup_self (splitKey k) d d1 v hins (splitKey_ne_nil k)
            have hnone := lookupPath_past_nondict (splitKey k) d1 q v hself hvk hq2
            rw [hnone] at hlookup; cases hlookup
          | false =>
            have hframe := insertPath_frame (splitKey k) d d1 v q hins hq1 hq2 hqe
            rw [hframe] at hlookup
            obtain ⟨k1, hk1, hk1q⟩ := hleaf q w hlookup hnd
            exact ⟨k1, by simp [hk1], hk1q⟩
    · intro q sub hlookup
      by_cases hqe : q = splitKey k
      · have hself := insertPath_lookup_self (splitKey k) d d1 v hins (splitKey_ne_nil k)
        rw [hqe, hself] at hlookup
        injection hlookup with hw
        rw [hw] at hvk
        simp [isDictV] at hvk
      · cases hq1 : properUnder q (splitKey k) with
        | true => exact ⟨k, by simp, hq1⟩
        | false =>
          cases hq2 : properUnder (splitKey k) q with
          | true =>
            have hself := insertPath_lookup_self (splitKey k) d d1 v hins (splitKey_ne_nil k)
            have hnone := lookupPath_past_nondict (splitKey k) d1 q v hself hvk hq2
            rw [hnone] at hlookup; cases hlookup
          | false =>
            have hframe := insertPath_frame (splitKey k) d d1 v q hins hq1 hq2 hqe
            rw [hframe] at hlookup
            obtain ⟨k1, hk1, hk1q⟩ := hdict q sub hlookup
            exact ⟨k1, by simp [hk1], hk1q⟩
    · intro k1 hk1
      by_cases hqe : splitKey k1 = splitKey k
      · rw [hqe]
        have hself := insertPath_lookup_self (splitKey k) d d1 v hins (splitKey_ne_nil k)
        rw [hself, lastValAt_append_eq ps k v (splitKey k) rfl]
      · have hk1' : k1 ∈ ps.map Prod.fst := by
          have hk1'' : k1 ∈ ps.map Prod.fst ∨ k1 = k := by simpa using hk1
          rcases hk1'' with h | h
          · exact h
          · subst h; exact absurd rfl hqe
        have hcmp := hvsub k1 hk1'
        have hframe := insertPath_frame (splitKey k) d d1 v (splitKey k1) hins hcmp.1 hcmp.2 hqe
        rw [hframe, hlast k1 hk1',
          lastValAt_append_ne ps k v (splitKey k1) (fun hh => hqe hh.symm)]

/-- Claim C1: the claim (and the spec) say `into_dict` must fail with a
structural-conflict error whenever a key path is used both as a leaf and
as a branch prefix, in either order, and must never silently overwrite.
The code does neither: on `[("a.b", 2), ("a", 1)]` it silently overwrites
the branch at `a` with the leaf `1` and returns successfully, and on
`[("a", 1), ("a.b", 2)]` it crashes with a `TypeError` (assignment into a
non-dict), not with any structural-conflict error — the source defines no
such error at all.  This theorem evaluates the code at both failing
inputs. -/
theorem claim_C1_conflict_behaviour :
    Parser.into_dict [("a.b", PyVal.num 2), ("a", PyVal.num 1)] =
      .ok [("a", PyVal.num 1)] ∧
    Parser.into_dict [("a", PyVal.num 1), ("a.b", PyVal.num 2)] =
      .error .typeError := ⟨rfl, rfl⟩

/-- Claim C2: on every datum sequence without structural conflict (no key
path a strict prefix of another) and with non-dict values (every value a
parser can produce), `into_dict` succeeds and, at each key's segment
path, the resulting tree holds the value of the last datum with that
path — last write wins, in document order. -/
theorem claim_C2_last_write_wins (ps : List (String × PyVal))
    (hv : (ps.all fun p => !isDictV p.2) = true)
    (hnc : noConflictB ps = true) :
    ∃ d, Parser.into_dict ps = .ok d ∧
      ∀ k ∈ ps.map Prod.fst, lookupPath d (splitKey k) = lastValAt ps (splitKey k) := by
  have hv' : ∀ p ∈ ps, isDictV p.2 = false := by
    intro p hp
    have hx := List.all_eq_true.mp hv p hp
    simpa using hx
  have hnc' : ∀ p ∈ ps, ∀ p1 ∈ ps, properUnder (splitKey p.1) (splitKey p1.1) = false := by
    intro p hp p1 hp1
    have h1 := List.all_eq_true.mp hnc p hp
    have h2 := List.all_eq_true.mp h1 p1 hp1
    simpa using h2
  obtain ⟨d, hok, _, _, hlast⟩ := into_dict_build ps hv' hnc'
  exact ⟨d, hok, hlast⟩

/-- Witness for C2 at a concrete conflict-free sequence where the same
full path `a.b` occurs twice: the later value wins. -/
theorem claim_C2_witness :
    ∃ d, Parser.into_dict [("a.b", PyVal.bool true), ("a.b", PyVal.bool false)] = .ok d ∧
      lookupPath d ["a", "b"] = some (PyVal.bool false) := by
  obtain ⟨d, h1, h2⟩ := claim_C2_last_write_wins
    [("a.b", PyVal.bool true), ("a.b", PyVal.bool false)] rfl rfl
  exact ⟨d, h1, h2 "a.b" (by simp)⟩

/-- Claim C3: whole-document parsing consumes the entire input; the three
malformed inputs (missing value, trailing token, unquoted non-literal)
each fail outright instead of returning a partial datum list. -/
theorem claim_C3_whole_input_consumed :
    Parser.parse "a.b.c" = none ∧
    Parser.parse "a.b.c 1 2" = none ∧
    Parser.parse "a.b.c test" = none := ⟨rfl, rfl, rfl⟩

/-- Claim C4: `into_object` on a pair list first builds the tree with
`into_dict` and then materializes it, so materializing pairs directly
agrees with materializing the built tree (errors propagating). -/
theorem claim_C4_into_object_refines (pairs : List (String × PyVal)) :
    Parser.into_object (.inl pairs) =
      (Parser.into_dict pairs).bind (fun d => Parser.into_object (.inr d)) := by
  cases h : Parser.into_dict pairs with
  | ok d => simp [Parser.into_object, h, Except.bind]
  | error e => simp [Parser.into_object, h, Except.bind]

/-- Claim C5: `Parser.parse "a 1\nb 2"` returns exactly the two datums in
input order with float values `1.0`, `2.0`; and every successful
`DataTypes.number` parse produces a float (`PyVal.num`), never an int
(`PyVal.intV`), because the matched literal is always passed to
`float`. -/
theorem claim_C5_order_and_floats :
    Parser.parse "a 1\nb 2" = some [("a", PyVal.num 1), ("b", PyVal.num 2)] ∧
    ∀ (cs : List Char) (out : PyVal) (rest : List Char),
      DataTypes.number cs = some (out, rest) → ∃ q : ℚ, out = PyVal.num q := by
  refine ⟨rfl, ?_⟩
  intro cs out rest h
  cases hx : trimWS DataTypes.regexNumber cs with
  | none => simp [DataTypes.number, pmap, hx] at h
  | some pr =>
    obtain ⟨a, s1⟩ := pr
    simp [DataTypes.number, pmap, hx] at h
    exact ⟨DataTypes.pyFloat a, h.1.symm⟩

/-- Witness for the second part of C5: the integer-looking literal `7`
parses to a float value. -/
theorem claim_C5_witness : ∃ q : ℚ, PyVal.num (DataTypes.pyFloat "7") = PyVal.num q :=
  claim_C5_order_and_floats.2 ['7'] (PyVal.num (DataTypes.pyFloat "7")) [] rfl

/-- Claim C6: collections preserve element order and heterogeneity, and
the empty collection parses to the empty sequence. -/
theorem claim_C6_collection_order_hetero :
    runP DataTypes.collection "[1 \"a\" true]" =
      some [PyVal.num 1, PyVal.str "a", PyVal.bool true] ∧
    runP DataTypes.collection "[]" = some [] := ⟨rfl, rfl⟩

/-- Counterexample to claim C7 as stated: the claim says a backslash
inside a string literal consumes and includes the following character for
every following character.  For a newline that is false: the escape rule
is `string('\\') >> regex('.')` and Python's `.` does not match a
newline, so the literal `"\<newline>b"` fails to parse entirely instead
of yielding the content `\nb`. -/
theorem claim_C7_counterexample :
    runP DataTypes.string_literal "\"\\\nb\"" = none ∧
    ¬ runP DataTypes.string_literal "\"\\\nb\"" = some "\nb" := by
  refine ⟨rfl, ?_⟩
  intro h
  rw [show runP DataTypes.string_literal "\"\\\nb\"" = none from rfl] at h
  cases h

/-- Claim C7 as amended: inside a string literal a backslash consumes and
includes the following character verbatim provided that character is not
a newline (backslash before a newline makes the escape — and hence the
literal — fail); every character other than an unescaped quote or
backslash is taken literally; `"hi"` parses to `hi` and a literal
containing backslash-quote yields content containing a quote. -/
theorem claim_C7_escape_amended :
    (∀ (c : Char) (rest : List Char), c ≠ '\n' →
      DataTypes.escape ('\\' :: c :: rest) = some (c, rest)) ∧
    (∀ rest : List Char, DataTypes.escape ('\\' :: '\n' :: rest) = none) ∧
    (∀ (c : Char) (rest : List Char), c ≠ '"' → c ≠ '\\' →
      DataTypes.expect (c :: rest) = some (c, rest)) ∧
    runP DataTypes.string_literal "\"hi\"" = some "hi" ∧
    runP DataTypes.string_literal "\"a\\\"b\"" = some "a\"b" := by
  refine ⟨?_, ?_, ?_, rfl, rfl⟩
  · intro c rest hc
    simp [DataTypes.escape, pseqR, pbind, pchar, hc]
  · intro rest
    simp [DataTypes.escape, pseqR, pbind, pchar]
  · intro c rest h1 h2
    simp [DataTypes.expect, h1, h2]

/-- Witness for C7 as amended: an escaped quote is consumed and included
verbatim. -/
theorem claim_C7_witness :
    DataTypes.escape ['\\', '"', '"'] = some ('"', ['"']) :=
  claim_C7_escape_amended.1 '"' ['"'] (by decide)

/-- Claim C8: the collection grammar does not enforce exclusivity of the
two separator styles: `[1, 2 3]` mixes a comma and a space separator and
still parses to the three floats in order. -/
theorem claim_C8_mixed_separators :
    runP DataTypes.collection "[1, 2 3]" =
      some [PyVal.num 1, PyVal.num 2, PyVal.num 3] := rfl

/-- Claim C9: the key grammar accepts empty segments and the entirely
empty key, returning the raw whitespace-trimmed dotted string unsplit;
splitting on dots happens only in the tree builder (`splitKey`). -/
theorem claim_C9_degenerate_keys :
    runP DataTypes.key "a..b" = some "a..b" ∧
    runP DataTypes.key ".a" = some ".a" ∧
    runP DataTypes.key "a." = some "a." ∧
    runP DataTypes.key "" = some "" ∧
    runP DataTypes.key " a..b " = some "a..b" ∧
    splitKey "a..b" = ["a", "", "b"] := ⟨rfl, rfl, rfl, rfl, rfl, rfl⟩

/-- Claim C10: the string-literal character class `[^"\\]` admits raw
newlines, so a quoted literal spanning two lines parses successfully with
the embedded newline preserved. -/
theorem claim_C10_raw_newline_in_string :
    runP DataTypes.string_literal "\"a\nb\"" = some "a\nb" := rfl

end QueryKnot
